import Mathlib

/-!
Verification of the transcript-to-HTML pipeline of `claude_code_transcripts`
(`src/claude_code_transcripts/__init__.py`).

The Python values flowing through the pipeline are shallowly embedded:

* a parsed JSON log entry becomes `Entry`; its `message` field is
  `Option Message` where `none` models a missing or empty (falsy) dict,
  matching the code's `entry.get("message", {})` / `if not message_data` checks;
* a message's `content` value is `Option Content` (`none` = key absent); the
  call sites apply their own Python defaults (`""` or `[]`);
* a content block becomes `Block`; fields that no verified function inspects
  (tool input payloads, tool ids, image data) are omitted from the embedding,
  since none of the analyzed code paths read them;
* strings are Lean `String`s; `len` is `String.length` (both count unicode
  scalar points); character classes of the regexes are modelled over the
  ASCII range that the transcripts use.
-/

/-- Content of a `tool_result` block: the code only distinguishes string
content (scanned for commit patterns, rendered as `<pre>`) from non-string
content (pretty-printed as JSON). -/
inductive RContent where
  | str (s : String)
  | nonstr
deriving DecidableEq

/-- One content block inside a message's `content` list.  `other` covers
non-dict blocks and blocks with an unrecognized `type` discriminator, which
`analyze_conversation` ignores. -/
inductive Block where
  | text (s : String)
  | thinking (s : String)
  | tool_use (name : Option String)
  | tool_result (content : RContent) (is_error : Bool)
  | other
deriving DecidableEq

/-- The `content` value of a message: a plain string, a list of blocks, or
some other JSON value (`other`), mirroring the `isinstance(content, str)` /
`isinstance(content, list)` dispatch in the code. -/
inductive Content where
  | str (s : String)
  | blocks (bs : List Block)
  | other
deriving DecidableEq

/-- A message dict.  `content := none` models a dict without a `content`
key; each call site applies its own Python default. -/
structure Message where
  content : Option Content
deriving DecidableEq

/-- One normalized log entry `{type, timestamp, message, isCompactSummary}`.
`type := none` models a missing `type` key; `message := none` models a
missing or empty (falsy) message dict; `isCompactSummary` is the truthiness
of `entry.get("isCompactSummary", False)`. -/
structure Entry where
  type : Option String
  timestamp : String
  message : Option Message
  isCompactSummary : Bool
deriving DecidableEq

/-- A conversation built by the segmentation loop in `generate_html`:
the triggering prompt text, its timestamp, the accumulated
`(log_type, message, timestamp)` tuples, and the continuation flag. -/
structure Conv where
  user_text : String
  timestamp : String
  messages : List (Option String × Message × String)
  is_continuation : Bool
deriving DecidableEq

abbrev MsgTuple := Option String × Message × String

/-- `PROMPTS_PER_PAGE = 5` from the source. -/
def PROMPTS_PER_PAGE : Nat := 5

/-- `LONG_TEXT_THRESHOLD = 300` from the source. -/
def LONG_TEXT_THRESHOLD : Nat := 300

/-! ### Python string primitives

Kernel-reducible embeddings of the Python string methods the pipeline
uses: `str.strip()`, `str.startswith(...)` and `str.lower()` (over the
ASCII whitespace and letter ranges the transcripts use).  They operate on
the character list of the string so that concrete inputs evaluate inside
`decide` and `rfl` proofs. -/

/-- `s.strip()`: remove leading and trailing whitespace. -/
def pyStrip (s : String) : String :=
  String.mk (((s.data.dropWhile Char.isWhitespace).reverse.dropWhile Char.isWhitespace).reverse)

/-- `s.startswith(pre)`. -/
def pyStartsWith (s pre : String) : Bool :=
  pre.data.isPrefixOf s.data

/-- `s.lower()` over ASCII. -/
def pyLower (s : String) : String :=
  String.mk (s.data.map Char.toLower)

/-- Lexicographic comparison of character lists (Python string `<=` by
code point), used only by the spec-modelled name-tie order. -/
def charListLe : List Char → List Char → Bool
  | [], _ => true
  | _ :: _, [] => false
  | a :: as, b :: bs => if a < b then true else if b < a then false else charListLe as bs

/-! ### COMMIT_PATTERN

The source regex matches a literal `[`, then one or more characters from
the class "word character, dash, or slash" (the branch name), a space, a
captured run of at least 7 characters from `[a-f0-9]` (the hash), a literal
`]` and a space, then a lazily captured non-empty run of arbitrary
characters (the commit message) terminated by a newline or the end of the
string.

The matcher below implements `finditer` for this fixed pattern.  Because
the space, `]` and the newline lie outside the character classes they
follow, the greedy quantifiers admit no backtracking: each class matches
its maximal run, and the lazy message group is exactly the (non-empty) run
of non-newline characters up to the next newline or the end of the string
(the dot of the pattern cannot cross a newline, and the end-of-string
anchor before a trailing newline coincides with the newline branch).  The
word class is modelled over ASCII as letters, digits and underscore. -/

def isWordOrDashSlash (c : Char) : Bool :=
  c.isAlpha || c.isDigit || c = '_' || c = '-' || c = '/'

/-- The `[a-f0-9]` class of the commit hash. -/
def isLowerHexDigit (c : Char) : Bool :=
  ('a' ≤ c && c ≤ 'f') || c.isDigit

/-- Try to match `COMMIT_PATTERN` at the very start of `s`.  On success,
returns `((hash, message), rest)` where `rest` is the input after the match
(`re` continues `finditer` scanning there). -/
def commitMatchAt (s : List Char) : Option ((String × String) × List Char) :=
  match s with
  | '[' :: r0 =>
    let (branch, r1) := r0.span isWordOrDashSlash
    if branch.isEmpty then none
    else
      match r1 with
      | ' ' :: r2 =>
        let (hash, r3) := r2.span isLowerHexDigit
        if hash.length < 7 then none
        else
          match r3 with
          | ']' :: ' ' :: r4 =>
            let (msg, r5) := r4.span (fun c => !(c = '\n'))
            if msg.isEmpty then none
            else
              match r5 with
              | '\n' :: r6 => some ((String.mk hash, String.mk msg), r6)
              | [] => some ((String.mk hash, String.mk msg), [])
              | _ => none
          | _ => none
      | _ => none
  | _ => none

/-- `finditer` scanning: try a match at every position, restarting after the
end of each match.  The fuel argument is the length of the remaining input;
every successful match consumes at least one character (it starts with `[`),
so `fuel = s.length` never runs out. -/
def findCommitsAux : Nat → List Char → List (String × String)
  | 0, _ => []
  | _ + 1, [] => []
  | fuel + 1, c :: rest =>
    match commitMatchAt (c :: rest) with
    | some (r, remainder) => r :: findCommitsAux fuel remainder
    | none => findCommitsAux fuel rest

/-- All `COMMIT_PATTERN` matches in `s`, as `(hash, message)` pairs, in
order of occurrence. -/
def findCommits (s : String) : List (String × String) :=
  findCommitsAux s.data.length s.data

/-! ### analyze_conversation -/

/-- The three aggregates returned by `analyze_conversation`:
`tool_counts` is the tool-name → count dict (an association list in
insertion order, modelling Python dict order), `long_texts` the collected
excerpt candidates in discovery order, `commits` the extracted
`(hash, message, timestamp)` triples in discovery order. -/
structure Stats where
  tool_counts : List (String × Nat)
  long_texts : List String
  commits : List (String × String × String)
deriving DecidableEq

/-- `tool_counts[name] = tool_counts.get(name, 0) + 1` on a Python dict:
increment in place if present, append at the end otherwise. -/
def bumpCount (name : String) : List (String × Nat) → List (String × Nat)
  | [] => [(name, 1)]
  | (k, v) :: rest =>
    if k = name then (k, v + 1) :: rest else (k, v) :: bumpCount name rest

/-- Processing of one content block inside `analyze_conversation`'s loop. -/
def analyzeBlock (timestamp : String) (st : Stats) (b : Block) : Stats :=
  match b with
  | Block.tool_use name =>
    { st with tool_counts := bumpCount (name.getD "Unknown") st.tool_counts }
  | Block.tool_result content _ =>
    match content with
    | RContent.str s =>
      { st with
        commits := st.commits ++ (findCommits s).map (fun p => (p.1, p.2, timestamp)) }
    | RContent.nonstr => st
  | Block.text s =>
    if LONG_TEXT_THRESHOLD ≤ s.length then
      { st with long_texts := st.long_texts ++ [s] }
    else st
  | Block.thinking _ => st
  | Block.other => st

/-- Processing of one `(log_type, message, timestamp)` tuple: messages whose
content is not a list are skipped (`message_data.get("content", [])` plus
the `isinstance(content, list)` check). -/
def analyzeMessage (st : Stats) (m : MsgTuple) : Stats :=
  match m.2.1.content with
  | some (Content.blocks bs) => bs.foldl (analyzeBlock m.2.2) st
  | _ => st

/-- `analyze_conversation(messages)`: single pass over the tuples.  The
Python code serializes each message dict to JSON in the segmentation loop
and re-parses it here; that round trip is the identity on the structured
values, so the embedding passes the `Message` values directly. -/
def analyze_conversation (messages : List MsgTuple) : Stats :=
  messages.foldl analyzeMessage ⟨[], [], []⟩

/-! ### format_tool_stats

Python's `sorted(tool_counts.items(), key=lambda x: -x[1])` is a stable
sort of the dict's items (insertion order) by descending count.  It is
embedded as a stable insertion sort: an element is inserted before the
first already-placed element whose count is less than or equal to its own
(already-placed elements came later in the input, so ties keep input
order). -/

def insertByCount (x : String × Nat) : List (String × Nat) → List (String × Nat)
  | [] => [x]
  | y :: ys => if y.2 ≤ x.2 then x :: y :: ys else y :: insertByCount x ys

/-- Stable sort by descending count (the embedding of
`sorted(items, key=lambda x: -x[1])`). -/
def sortByCountDesc (l : List (String × Nat)) : List (String × Nat) :=
  l.foldr insertByCount []

/-- The fixed abbreviation lookup of `format_tool_stats`. -/
def ABBREV : List (String × String) :=
  [("Bash", "bash"), ("Read", "read"), ("Write", "write"), ("Edit", "edit"),
   ("Glob", "glob"), ("Grep", "grep"), ("Task", "task"), ("TodoWrite", "todo"),
   ("WebFetch", "fetch"), ("WebSearch", "search")]

/-- `abbrev.get(name, name.lower())`. -/
def abbrevName (name : String) : String :=
  (ABBREV.lookup name).getD (pyLower name)

/-- One `"N tool"` part of the summary string. -/
def statEntry (p : String × Nat) : String :=
  toString p.2 ++ " " ++ abbrevName p.1

/-- `format_tool_stats(tool_counts)`. -/
def format_tool_stats (tool_counts : List (String × Nat)) : String :=
  if tool_counts.isEmpty then ""
  else String.intercalate " · " ((sortByCountDesc tool_counts).map statEntry)

/-- Spec-modelled variant for comparison (claim C5's wording): tools sorted
by descending count with ties broken by the tool's raw name.  This is NOT
the source's order; it exists only to exhibit the divergence. -/
def insertByCountName (x : String × Nat) : List (String × Nat) → List (String × Nat)
  | [] => [x]
  | y :: ys =>
    if y.2 < x.2 || (y.2 == x.2 && charListLe x.1.data y.1.data) then x :: y :: ys
    else y :: insertByCountName x ys

/-- Spec-modelled variant of `format_tool_stats` that breaks count ties by
the raw tool name, following the claim's words. -/
def format_tool_stats_nameTies (tool_counts : List (String × Nat)) : String :=
  if tool_counts.isEmpty then ""
  else String.intercalate " · " ((tool_counts.foldr insertByCountName []).map statEntry)

/-! ### Session summaries (get_session_summary) -/

/-- Python slicing `s[:stop]` for a possibly negative `stop`. -/
def pySliceTo (s : String) (stop : Int) : String :=
  if 0 ≤ stop then String.mk (s.data.take stop.toNat)
  else String.mk (s.data.take (s.length - (-stop).toNat))

/-- The truncation applied to every found summary:
`content[: max_length - 3] + "..."` when `len(content) > max_length`,
otherwise the content unchanged.  `max_length - 3` is Python integer
arithmetic, so for budgets below 3 the slice bound is negative. -/
def truncate_summary (content : String) (max_length : Nat) : String :=
  if max_length < content.length then
    pySliceTo content ((max_length : Int) - 3) ++ "..."
  else content

/-- One line of a JSONL file, as seen by the per-line parsers:
`blank` (empty after strip), `malformed` (JSON parse failure), `nonObject`
(valid JSON whose value is not an object — `obj.get` then raises
`AttributeError`), or a parsed object with the fields the code reads.
`summary := none` models a missing or falsy `summary` field; `isMeta` is
the truthiness of `obj.get("isMeta")`. -/
inductive LineVal where
  | blank
  | malformed
  | nonObject
  | obj (type : Option String) (timestamp : Option String) (message : Option Message)
        (isCompactSummary : Bool) (summary : Option String) (isMeta : Bool)
deriving DecidableEq

/-- First pass of `_get_jsonl_summary`: find a `summary`-typed entry with a
truthy `summary` field.  A non-object line raises `AttributeError`, which
escapes the inner `except json.JSONDecodeError` and aborts the whole
function (modelled as `Except.error`). -/
def jsonlPass1 : List LineVal → Except Unit (Option String)
  | [] => Except.ok none
  | LineVal.blank :: rest => jsonlPass1 rest
  | LineVal.malformed :: rest => jsonlPass1 rest
  | LineVal.nonObject :: _ => Except.error ()
  | LineVal.obj t _ _ _ summ _ :: rest =>
    match summ with
    | some s => if t = some "summary" ∧ s ≠ "" then Except.ok (some s) else jsonlPass1 rest
    | none => jsonlPass1 rest

/-- Second pass of `_get_jsonl_summary`: find the first non-meta user
message whose content is a non-empty string that, after stripping, is
non-empty and does not start with `<`; the stripped content is returned. -/
def jsonlPass2 : List LineVal → Except Unit (Option String)
  | [] => Except.ok none
  | LineVal.blank :: rest => jsonlPass2 rest
  | LineVal.malformed :: rest => jsonlPass2 rest
  | LineVal.nonObject :: _ => Except.error ()
  | LineVal.obj t _ msg _ _ meta :: rest =>
    match t, meta, msg with
    | some "user", false, some m =>
      match m.content with
      | some (Content.str s) =>
        if s ≠ "" ∧ pyStrip s ≠ "" ∧ ¬ pyStartsWith (pyStrip s) "<" then
          Except.ok (some (pyStrip s))
        else jsonlPass2 rest
      | _ => jsonlPass2 rest
    | _, _, _ => jsonlPass2 rest

/-- `_get_jsonl_summary(filepath, max_length)` over the file's parsed
lines.  Any escaped exception is caught by the outer handler and yields the
sentinel. -/
def _get_jsonl_summary (lines : List LineVal) (max_length : Nat) : String :=
  match jsonlPass1 lines with
  | Except.error _ => "(no summary)"
  | Except.ok (some s) => truncate_summary s max_length
  | Except.ok none =>
    match jsonlPass2 lines with
    | Except.error _ => "(no summary)"
    | Except.ok (some s) => truncate_summary s max_length
    | Except.ok none => "(no summary)"

/-- The JSON-path search of `get_session_summary`: the first `user` entry
whose content is a string with non-empty strip. -/
def jsonFindSummary : List Entry → Option String
  | [] => none
  | e :: rest =>
    if e.type = some "user" then
      match (match e.message with | some m => m.content.getD (Content.str "") | none => Content.str "") with
      | Content.str s => if pyStrip s = "" then jsonFindSummary rest else some s
      | _ => jsonFindSummary rest
    else jsonFindSummary rest

/-- The two supported inputs of `get_session_summary`, with `Except.error`
modelling any I/O or top-level parse failure (caught by the function's
`except Exception`). -/
inductive SessionSource where
  | jsonlFile (res : Except Unit (List LineVal))
  | jsonFile (res : Except Unit (List Entry))

/-- `get_session_summary(filepath, max_length)`: dispatch on the suffix,
search for a summary, truncate it to the budget; every failure path
produces the `"(no summary)"` sentinel. -/
def get_session_summary (src : SessionSource) (max_length : Nat) : String :=
  match src with
  | SessionSource.jsonlFile (Except.error _) => "(no summary)"
  | SessionSource.jsonlFile (Except.ok lines) => _get_jsonl_summary lines max_length
  | SessionSource.jsonFile (Except.error _) => "(no summary)"
  | SessionSource.jsonFile (Except.ok loglines) =>
    match jsonFindSummary loglines with
    | some s => truncate_summary s max_length
    | none => "(no summary)"

/-! ### _parse_jsonl_file -/

/-- Conversion of one object line to a normalized entry: only `user` and
`assistant` types are kept; `timestamp` defaults to the empty string;
`isCompactSummary` is preserved when truthy (an entry without the key
behaves as `false` downstream, so the flag is a `Bool` here). -/
def lineToEntry (t : Option String) (ts : Option String) (m : Option Message)
    (ics : Bool) : Option Entry :=
  if t = some "user" ∨ t = some "assistant" then
    some ⟨t, ts.getD "", m, ics⟩
  else none

/-- `_parse_jsonl_file`: blank and malformed lines are skipped silently
(the `except json.JSONDecodeError: continue` handler); a line holding a
non-object JSON value raises `AttributeError` at `obj.get("type")`, which
is not caught and propagates (`Except.error`). -/
def _parse_jsonl_file : List LineVal → Except Unit (List Entry)
  | [] => Except.ok []
  | LineVal.blank :: rest => _parse_jsonl_file rest
  | LineVal.malformed :: rest => _parse_jsonl_file rest
  | LineVal.nonObject :: _ => Except.error ()
  | LineVal.obj t ts m ics _ _ :: rest =>
    match lineToEntry t ts m ics with
    | some e => (_parse_jsonl_file rest).map (fun es => e :: es)
    | none => _parse_jsonl_file rest

/-! ### Conversation segmentation (the loop in generate_html) -/

/-- The prompt test of the segmentation loop: a `user` entry whose message
content is a string with non-empty strip starts a new conversation; the
returned value is the (unstripped) content, the conversation's
`user_text`. -/
def promptTextOf (e : Entry) : Option String :=
  match e.message with
  | none => none
  | some m =>
    if e.type = some "user" then
      match m.content.getD (Content.str "") with
      | Content.str s => if pyStrip s = "" then none else some s
      | _ => none
    else none

/-- Whether an entry starts a new conversation. -/
def isPromptEntry (e : Entry) : Bool :=
  (promptTextOf e).isSome

/-- The `(log_type, message, timestamp)` tuple an entry contributes, when
its message is non-empty. -/
def entryTuple (e : Entry) : Option MsgTuple :=
  e.message.map (fun m => (e.type, m, e.timestamp))

/-- The segmentation loop of `generate_html` (lines 837-867): `cur` is the
Python `current_conv`; emitted conversations appear in completion order and
the final open conversation is flushed at the end of input. -/
def segGo : List Entry → Option Conv → List Conv
  | [], cur => cur.toList
  | e :: rest, cur =>
    match e.message with
    | none => segGo rest cur
    | some m =>
      match promptTextOf e with
      | some t =>
        cur.toList ++
          segGo rest (some ⟨t, e.timestamp, [(e.type, m, e.timestamp)], e.isCompactSummary⟩)
      | none =>
        match cur with
        | some c => segGo rest (some { c with messages := c.messages ++ [(e.type, m, e.timestamp)] })
        | none => segGo rest none

/-- The conversation list `generate_html` builds from the loglines. -/
def segmentLoglines (loglines : List Entry) : List Conv :=
  segGo loglines none

/-! ### Pagination -/

/-- `total_pages = (total_convs + PROMPTS_PER_PAGE - 1) // PROMPTS_PER_PAGE`. -/
def totalPagesFor (n : Nat) : Nat :=
  (n + PROMPTS_PER_PAGE - 1) / PROMPTS_PER_PAGE

/-- The per-page conversation slices
`conversations[(p-1)*5 : min(p*5, total)]` for pages `1..total_pages`. -/
def pageSlices (convs : List Conv) : List (List Conv) :=
  (List.range (totalPagesFor convs.length)).map
    (fun p => (convs.drop (p * PROMPTS_PER_PAGE)).take PROMPTS_PER_PAGE)

/-! ### Index long-text excerpts -/

/-- A conversation is skipped on the index when it is a continuation or its
prompt starts with the hook-feedback marker. -/
def eligiblePrompt (c : Conv) : Bool :=
  !c.is_continuation && !(pyStartsWith c.user_text "Stop hook feedback:")

/-- Messages of the continuation chain following an eligible prompt: the
inner `for j in range(i+1, ...)` loop walks forward while conversations are
continuations. -/
def takeContinuations : List Conv → List MsgTuple
  | [] => []
  | c :: rest => if c.is_continuation then c.messages ++ takeContinuations rest else []

/-- All `text`-block strings occurring (in order) in a message list, as
`analyze_conversation` traverses them. -/
def textBlocksOf (msgs : List MsgTuple) : List String :=
  msgs.flatMap (fun m =>
    match m.2.1.content with
    | some (Content.blocks bs) =>
      bs.filterMap (fun b => match b with | Block.text s => some s | _ => none)
    | _ => [])

/-- The long-text excerpts of the index page, in the order the index loop
of `generate_html` (lines 919-947) collects them: for every eligible
prompt, the `long_texts` of its messages together with those of its
continuation chain. -/
def indexLongTexts : List Conv → List String
  | [] => []
  | c :: rest =>
    (if eligiblePrompt c then
      (analyze_conversation (c.messages ++ takeContinuations rest)).long_texts
     else []) ++ indexLongTexts rest

/-! ### Timeline -/

/-- One timeline entry `(timestamp, kind, item_html)` as appended by the
index loop (`kind` is `"prompt"` or `"commit"`). -/
structure TLItem where
  ts : String
  kind : String
  html : String
deriving DecidableEq

/-- Insertion step of the stable sort embedding
`timeline_items.sort(key=lambda x: x[0])`: an element is placed before the
first already-placed element it is `≤` on the timestamp, so elements with
equal timestamps keep their original relative order. -/
def insertTs (x : TLItem) : List TLItem → List TLItem
  | [] => [x]
  | y :: ys => if x.ts ≤ y.ts then x :: y :: ys else y :: insertTs x ys

/-- Stable sort of timeline items by ascending timestamp. -/
def sortByTs (l : List TLItem) : List TLItem :=
  l.foldr insertTs []

/-- The merged index timeline: prompt entries (in conversation order), then
commit entries (in discovery order), stably sorted by timestamp. -/
def buildTimeline (prompts commits : List TLItem) : List TLItem :=
  sortByTs (prompts ++ commits)

/-! ### The generation pipelines (generate_html and
generate_html_from_session_data)

Both functions are embedded as pure pipelines from
`(loglines, github_repo)` to the data that determines every byte written:
for each page, the argument tuple passed to the page template, and for the
index, the argument tuple passed to the index template.  The shared
module-level rendering primitives (the Jinja macros, `render_message`,
`render_markdown_text`, the pagination builders and `detect_github_repo`)
are abstracted as an environment of functions: both functions invoke the
same module-level objects, so any behaviour of those primitives is covered
by quantifying over the environment.  The module-global `_github_repo`,
set identically by both functions before rendering, is threaded as an
explicit argument to `render_message` and the commit macro. -/

/-- The shared rendering primitives, abstracted. -/
structure RenderEnv where
  detect_github_repo : List Entry → Option String
  render_message : Option String → Option String → Message → String → String
  render_markdown_text : String → String
  pagination : Nat → Nat → String
  index_pagination : Nat → String
  index_long_text : String → String
  index_stats : String → String → String
  index_item : Nat → String → String → String → String → String
  index_commit : String → String → String → Option String → String

/-- Everything page `page_num` renders with (the arguments of
`page_template.render` besides the constant CSS/JS payloads). -/
structure PageRender where
  page_num : Nat
  total_pages : Nat
  pagination_html : String
  messages_html : String
deriving DecidableEq

/-- Everything the index page renders with. -/
structure IndexRender where
  pagination_html : String
  prompt_num : Nat
  total_messages : Nat
  total_tool_calls : Nat
  total_commits : Nat
  total_pages : Nat
  index_items_html : String
deriving DecidableEq

/-- The full observable output of a generation run. -/
structure GenOutput where
  repo : Option String
  conversations : List Conv
  pages : List PageRender
  index : IndexRender
deriving DecidableEq

/-- `f"{page_num:03d}"`: decimal, zero-padded to width 3. -/
def pad3 (n : Nat) : String :=
  let s := toString n
  String.mk (List.replicate (3 - s.length) '0') ++ s

/-- `make_msg_id(timestamp)`: `msg-` plus the timestamp with `:` and `.`
replaced by `-`. -/
def make_msg_id (timestamp : String) : String :=
  "msg-" ++ String.mk (timestamp.data.map
    (fun c => if c = ':' then '-' else if c = '.' then '-' else c))

/-- The collapsible wrapper put around the first rendered message of a
continuation conversation. -/
def contWrap (h : String) : String :=
  "<details class=\"continuation\"><summary>Session continuation summary</summary>" ++
    h ++ "</details>"

/-- `total[tool] = total.get(tool, 0) + count` on the running dict. -/
def bumpCountBy (name : String) (k : Nat) : List (String × Nat) → List (String × Nat)
  | [] => [(name, k)]
  | (a, b) :: rest =>
    if a = name then (a, b + k) :: rest else (a, b) :: bumpCountBy name k rest

/-- Merging one conversation's `tool_counts` into the running totals. -/
def mergeCounts (total counts : List (String × Nat)) : List (String × Nat) :=
  counts.foldl (fun acc kv => bumpCountBy kv.1 kv.2 acc) total

/-- One element of `all_commits`:
`(commit_ts, commit_hash, commit_msg, page_num, conv_index)`. -/
abbrev CommitTup := String × String × String × Nat × Nat

/-! #### Pipeline of generate_html (file-path entry point) -/

/-- The inner message loop of the page loop in `generate_html`: renders
each message, drops empty renderings, and wraps the first message of a
continuation conversation when its rendering is non-empty (`is_first` is
cleared after the first message whether or not it rendered). -/
def convHtml (env : RenderEnv) (repo : Option String) (conv : Conv) : List String :=
  match conv.messages with
  | [] => []
  | first :: rest =>
    let h := env.render_message repo first.1 first.2.1 first.2.2
    (if h = "" then []
     else [if conv.is_continuation then contWrap h else h]) ++
    rest.filterMap (fun m =>
      let h2 := env.render_message repo m.1 m.2.1 m.2.2
      if h2 = "" then none else some h2)

/-- One page of the page loop in `generate_html`. -/
def renderPage (env : RenderEnv) (repo : Option String) (total_pages page_num : Nat)
    (page_convs : List Conv) : PageRender :=
  { page_num := page_num
    total_pages := total_pages
    pagination_html := env.pagination page_num total_pages
    messages_html := String.join (page_convs.flatMap (convHtml env repo)) }

/-- The stats loop of `generate_html` (lines 900-913): running tool-count
totals, message total, and `all_commits` with page number and conversation
index attached. -/
def totalsGo : List Conv → Nat → List (String × Nat) → Nat → List CommitTup →
    List (String × Nat) × Nat × List CommitTup
  | [], _, tc, tm, ac => (tc, tm, ac)
  | c :: rest, i, tc, tm, ac =>
    let stats := analyze_conversation c.messages
    let page_num := i / PROMPTS_PER_PAGE + 1
    totalsGo rest (i + 1) (mergeCounts tc stats.tool_counts)
      (tm + c.messages.length)
      (ac ++ stats.commits.map (fun t => (t.2.2, t.1, t.2.1, page_num, i)))

/-- The prompt loop of `generate_html` (lines 919-953): numbering of
eligible prompts and their timeline items, with continuation-chain
messages folded into the stats of the preceding eligible prompt. -/
def promptItemsGo (env : RenderEnv) : List Conv → Nat → Nat → Nat × List TLItem
  | [], _, prompt_num => (prompt_num, [])
  | c :: rest, i, prompt_num =>
    if c.is_continuation || pyStartsWith c.user_text "Stop hook feedback:" then
      promptItemsGo env rest (i + 1) prompt_num
    else
      let pn := prompt_num + 1
      let page_num := i / PROMPTS_PER_PAGE + 1
      let link := "page-" ++ pad3 page_num ++ ".html#" ++ make_msg_id c.timestamp
      let all_messages := c.messages ++ takeContinuations rest
      let stats := analyze_conversation all_messages
      let tool_stats_str := format_tool_stats stats.tool_counts
      let long_texts_html :=
        String.join (stats.long_texts.map (fun lt => env.index_long_text (env.render_markdown_text lt)))
      let stats_html := env.index_stats tool_stats_str long_texts_html
      let item := env.index_item pn link c.timestamp (env.render_markdown_text c.user_text) stats_html
      let (final, items) := promptItemsGo env rest (i + 1) pn
      (final, ⟨c.timestamp, "prompt", item⟩ :: items)

/-- The pure content of `generate_html(json_path, output_dir, github_repo)`
after the loglines have been loaded (lines 814-983). -/
def generate_html (env : RenderEnv) (loglines : List Entry)
    (github_repo : Option String) : GenOutput :=
  let repo := match github_repo with
    | some r => some r
    | none => env.detect_github_repo loglines
  let conversations := segmentLoglines loglines
  let total_pages := totalPagesFor conversations.length
  let pages := (pageSlices conversations).enum.map
    (fun pr => renderPage env repo total_pages (pr.1 + 1) pr.2)
  let (total_tool_counts, total_messages, all_commits) := totalsGo conversations 0 [] 0 []
  let (prompt_num, promptItems) := promptItemsGo env conversations 0 0
  let commitItems := all_commits.map
    (fun t => TLItem.mk t.1 "commit" (env.index_commit t.2.1 t.2.2.1 t.1 repo))
  { repo := repo
    conversations := conversations
    pages := pages
    index :=
      { pagination_html := env.index_pagination total_pages
        prompt_num := prompt_num
        total_messages := total_messages
        total_tool_calls := (total_tool_counts.map (fun p => p.2)).sum
        total_commits := all_commits.length
        total_pages := total_pages
        index_items_html :=
          String.join ((buildTimeline promptItems commitItems).map (fun x => x.html)) } }

/-! #### Pipeline of generate_html_from_session_data (in-memory entry
point, lines 1234-1397).  Its segmentation, page, stats, prompt and
timeline loops are separate code in the source, so they are translated
separately here (the `_sd` definitions) and compared to the file-path
pipeline by the C10 theorem. -/

/-- The segmentation loop of `generate_html_from_session_data`
(lines 1251-1281). -/
def segGo_sd : List Entry → Option Conv → List Conv
  | [], cur => cur.toList
  | e :: rest, cur =>
    match e.message with
    | none => segGo_sd rest cur
    | some m =>
      match promptTextOf e with
      | some t =>
        cur.toList ++
          segGo_sd rest (some ⟨t, e.timestamp, [(e.type, m, e.timestamp)], e.isCompactSummary⟩)
      | none =>
        match cur with
        | some c => segGo_sd rest (some { c with messages := c.messages ++ [(e.type, m, e.timestamp)] })
        | none => segGo_sd rest none

/-- The conversation list `generate_html_from_session_data` builds. -/
def segmentLoglines_sd (loglines : List Entry) : List Conv :=
  segGo_sd loglines none

/-- The inner message loop of the page loop (lines 1291-1300). -/
def convHtml_sd (env : RenderEnv) (repo : Option String) (conv : Conv) : List String :=
  match conv.messages with
  | [] => []
  | first :: rest =>
    let h := env.render_message repo first.1 first.2.1 first.2.2
    (if h = "" then []
     else [if conv.is_continuation then contWrap h else h]) ++
    rest.filterMap (fun m =>
      let h2 := env.render_message repo m.1 m.2.1 m.2.2
      if h2 = "" then none else some h2)

/-- One page of the page loop (lines 1286-1311). -/
def renderPage_sd (env : RenderEnv) (repo : Option String) (total_pages page_num : Nat)
    (page_convs : List Conv) : PageRender :=
  { page_num := page_num
    total_pages := total_pages
    pagination_html := env.pagination page_num total_pages
    messages_html := String.join (page_convs.flatMap (convHtml_sd env repo)) }

/-- The stats loop (lines 1314-1327). -/
def totalsGo_sd : List Conv → Nat → List (String × Nat) → Nat → List CommitTup →
    List (String × Nat) × Nat × List CommitTup
  | [], _, tc, tm, ac => (tc, tm, ac)
  | c :: rest, i, tc, tm, ac =>
    let stats := analyze_conversation c.messages
    let page_num := i / PROMPTS_PER_PAGE + 1
    totalsGo_sd rest (i + 1) (mergeCounts tc stats.tool_counts)
      (tm + c.messages.length)
      (ac ++ stats.commits.map (fun t => (t.2.2, t.1, t.2.1, page_num, i)))

/-- The continuation-chain walk of the prompt loop (lines 1347-1351). -/
def takeContinuations_sd : List Conv → List MsgTuple
  | [] => []
  | c :: rest => if c.is_continuation then c.messages ++ takeContinuations_sd rest else []

/-- The prompt loop (lines 1333-1367). -/
def promptItemsGo_sd (env : RenderEnv) : List Conv → Nat → Nat → Nat × List TLItem
  | [], _, prompt_num => (prompt_num, [])
  | c :: rest, i, prompt_num =>
    if c.is_continuation || pyStartsWith c.user_text "Stop hook feedback:" then
      promptItemsGo_sd env rest (i + 1) prompt_num
    else
      let pn := prompt_num + 1
      let page_num := i / PROMPTS_PER_PAGE + 1
      let link := "page-" ++ pad3 page_num ++ ".html#" ++ make_msg_id c.timestamp
      let all_messages := c.messages ++ takeContinuations_sd rest
      let stats := analyze_conversation all_messages
      let tool_stats_str := format_tool_stats stats.tool_counts
      let long_texts_html :=
        String.join (stats.long_texts.map (fun lt => env.index_long_text (env.render_markdown_text lt)))
      let stats_html := env.index_stats tool_stats_str long_texts_html
      let item := env.index_item pn link c.timestamp (env.render_markdown_text c.user_text) stats_html
      let (final, items) := promptItemsGo_sd env rest (i + 1) pn
      (final, ⟨c.timestamp, "prompt", item⟩ :: items)

/-- The pure content of
`generate_html_from_session_data(session_data, output_dir, github_repo)`
for `loglines = session_data.get("loglines", [])` (lines 1234-1397). -/
def generate_html_from_session_data (env : RenderEnv) (loglines : List Entry)
    (github_repo : Option String) : GenOutput :=
  let repo := match github_repo with
    | some r => some r
    | none => env.detect_github_repo loglines
  let conversations := segmentLoglines_sd loglines
  let total_pages := totalPagesFor conversations.length
  let pages := (pageSlices conversations).enum.map
    (fun pr => renderPage_sd env repo total_pages (pr.1 + 1) pr.2)
  let (total_tool_counts, total_messages, all_commits) := totalsGo_sd conversations 0 [] 0 []
  let (prompt_num, promptItems) := promptItemsGo_sd env conversations 0 0
  let commitItems := all_commits.map
    (fun t => TLItem.mk t.1 "commit" (env.index_commit t.2.1 t.2.2.1 t.1 repo))
  { repo := repo
    conversations := conversations
    pages := pages
    index :=
      { pagination_html := env.index_pagination total_pages
        prompt_num := prompt_num
        total_messages := total_messages
        total_tool_calls := (total_tool_counts.map (fun p => p.2)).sum
        total_commits := all_commits.length
        total_pages := total_pages
        index_items_html :=
          String.join ((buildTimeline promptItems commitItems).map (fun x => x.html)) } }

/-! ### Concrete example inputs used by counterexamples and witnesses -/

/-- Lines that the JSONL parser skips silently. -/
def isSkippedLine : LineVal → Bool
  | LineVal.blank => true
  | LineVal.malformed => true
  | _ => false

/-- A text block of exactly 299 characters. -/
def s299 : String := String.mk (List.replicate 299 'a')

/-- A text block of exactly 300 characters. -/
def s300 : String := String.mk (List.replicate 300 'a')

/-- A session whose only conversation is a hook-feedback prompt followed by
an assistant message holding a 300-character text block. -/
def hookSession : List Entry :=
  [Entry.mk (some "user") "t1" (some ⟨some (Content.str "Stop hook feedback: lint failed")⟩) false,
   Entry.mk (some "assistant") "t2" (some ⟨some (Content.blocks [Block.text s300])⟩) false]

/-- A session whose only conversation is an ordinary prompt followed by an
assistant message holding a 300-character text block. -/
def plainConv : Conv :=
  Conv.mk "do it" "t1"
    [(some "user", ⟨some (Content.str "do it")⟩, "t1"),
     (some "assistant", ⟨some (Content.blocks [Block.text s300])⟩, "t2")] false

/-! ## Theorems -/

/-! ### C4: commit extraction -/

/-- Claim C4: running commit extraction (`analyze_conversation` over a
`tool_result` whose string content is
`"[main abc1234] Add feature\n1 file changed"`) yields exactly one commit
record, with hash `abc1234` and message `Add feature` (stamped with the
message's timestamp). -/
theorem commit_extraction_example :
    (analyze_conversation
      [(some "user",
        ⟨some (Content.blocks
          [Block.tool_result (RContent.str "[main abc1234] Add feature\n1 file changed") false])⟩,
        "2025-01-01T00:00:00Z")]).commits =
      [("abc1234", "Add feature", "2025-01-01T00:00:00Z")] := by
  rfl

/-! ### C2: pagination -/

theorem totalPagesFor_succ (n : Nat) (h : n ≠ 0) :
    totalPagesFor n = totalPagesFor (n - PROMPTS_PER_PAGE) + 1 := by
  simp only [totalPagesFor, PROMPTS_PER_PAGE]
  omega

theorem pageSlices_cons (convs : List Conv) (h : convs ≠ []) :
    pageSlices convs =
      convs.take PROMPTS_PER_PAGE :: pageSlices (convs.drop PROMPTS_PER_PAGE) := by
  have hn : convs.length ≠ 0 := fun h0 => h (List.length_eq_zero.mp h0)
  unfold pageSlices
  rw [List.length_drop, totalPagesFor_succ convs.length hn, List.range_succ_eq_map,
    List.map_cons, List.map_map]
  apply congrArg₂ List.cons
  · simp
  · apply List.map_congr_left
    intro p _
    simp only [Function.comp_apply]
    rw [List.drop_drop]
    congr 2
    simp only [Nat.succ_eq_add_one]
    ring

theorem pageSlices_join (convs : List Conv) : (pageSlices convs).flatten = convs :=
  if h : convs = [] then by subst h; rfl
  else by
    rw [pageSlices_cons convs h, List.flatten_cons, pageSlices_join (convs.drop PROMPTS_PER_PAGE),
      List.take_append_drop]
termination_by convs.length
decreasing_by
  have : 0 < convs.length := List.length_pos.mpr h
  simp only [List.length_drop, PROMPTS_PER_PAGE]
  omega

/-- Claim C2: for a list of `N` conversations, the page loop of
`generate_html` produces exactly `ceil(N/5)` page slices (page size
`PROMPTS_PER_PAGE = 5`, so zero conversations yield zero pages and the last
page may be partial), and their concatenation is the conversation list
itself — every conversation lands on exactly one page and page contents
preserve the original order. -/
theorem pagination_invariant (convs : List Conv) :
    (pageSlices convs).length =
      (convs.length + PROMPTS_PER_PAGE - 1) / PROMPTS_PER_PAGE ∧
    (pageSlices convs).flatten = convs := by
  constructor
  · simp [pageSlices, totalPagesFor]
  · exact pageSlices_join convs

/-! ### C8: timeline sort -/

theorem mem_insertTs {z x : TLItem} {l : List TLItem} :
    z ∈ insertTs x l ↔ z = x ∨ z ∈ l := by
  induction l with
  | nil => simp [insertTs]
  | cons y ys ih =>
    simp only [insertTs]
    split
    · simp [List.mem_cons]
    · simp only [List.mem_cons, ih]
      tauto

theorem perm_insertTs (x : TLItem) (l : List TLItem) : List.Perm (insertTs x l) (x :: l) := by
  induction l with
  | nil => exact List.Perm.refl _
  | cons y ys ih =>
    simp only [insertTs]
    split
    · exact List.Perm.refl _
    · exact List.Perm.trans (List.Perm.cons y ih) (List.Perm.swap x y ys)

theorem pairwise_insertTs (x : TLItem) (l : List TLItem)
    (h : l.Pairwise (fun a b => a.ts ≤ b.ts)) :
    (insertTs x l).Pairwise (fun a b => a.ts ≤ b.ts) := by
  induction l with
  | nil => simp [insertTs]
  | cons y ys ih =>
    rcases List.pairwise_cons.mp h with ⟨hy, hys⟩
    simp only [insertTs]
    split
    case isTrue hle =>
      refine List.pairwise_cons.mpr ⟨?_, h⟩
      intro z hz
      rcases List.mem_cons.mp hz with rfl | hz'
      · exact hle
      · exact le_trans hle (hy z hz')
    case isFalse hle =>
      refine List.pairwise_cons.mpr ⟨?_, ih hys⟩
      intro z hz
      rcases mem_insertTs.mp hz with rfl | hz'
      · exact le_of_not_le hle
      · exact hy z hz'

theorem filter_insertTs (t : String) (x : TLItem) (l : List TLItem) :
    (insertTs x l).filter (fun y => decide (y.ts = t)) =
      if x.ts = t then x :: l.filter (fun y => decide (y.ts = t))
      else l.filter (fun y => decide (y.ts = t)) := by
  induction l with
  | nil => by_cases hx : x.ts = t <;> simp [insertTs, List.filter_cons, hx]
  | cons y ys ih =>
    simp only [insertTs]
    split
    case isTrue hle =>
      by_cases hx : x.ts = t <;> simp [List.filter_cons, hx]
    case isFalse hle =>
      by_cases hx : x.ts = t
      · have hy : ¬ y.ts = t := by
          have hlt : y.ts < x.ts := not_le.mp hle
          rw [hx] at hlt
          exact ne_of_lt hlt
        simp [List.filter_cons, hx, hy, ih]
      · simp [List.filter_cons, hx, ih]

theorem sortByTs_pairwise (l : List TLItem) :
    (sortByTs l).Pairwise (fun a b => a.ts ≤ b.ts) := by
  induction l with
  | nil => simp [sortByTs]
  | cons x xs ih => exact pairwise_insertTs x (sortByTs xs) ih

theorem sortByTs_perm (l : List TLItem) : List.Perm (sortByTs l) l := by
  induction l with
  | nil => exact List.Perm.refl _
  | cons x xs ih =>
    exact List.Perm.trans (perm_insertTs x (sortByTs xs)) (List.Perm.cons x ih)

theorem sortByTs_filter (t : String) (l : List TLItem) :
    (sortByTs l).filter (fun y => decide (y.ts = t)) =
      l.filter (fun y => decide (y.ts = t)) := by
  induction l with
  | nil => rfl
  | cons x xs ih =>
    show (insertTs x (sortByTs xs)).filter _ = _
    rw [filter_insertTs]
    by_cases hx : x.ts = t <;> simp [List.filter_cons, hx, ih]

/-- Claim C8: the index timeline (prompt entries followed by commit
entries, in discovery order) is sorted by timestamp ascending with a stable
sort — the result is pairwise ordered, is a permutation of the input, and
entries sharing a timestamp keep the order in which they were appended. -/
theorem timeline_sorted_stable (prompts commits : List TLItem) :
    (buildTimeline prompts commits).Pairwise (fun a b => a.ts ≤ b.ts) ∧
    (buildTimeline prompts commits).Perm (prompts ++ commits) ∧
    ∀ t : String,
      (buildTimeline prompts commits).filter (fun y => decide (y.ts = t)) =
        (prompts ++ commits).filter (fun y => decide (y.ts = t)) :=
  ⟨sortByTs_pairwise (prompts ++ commits), sortByTs_perm (prompts ++ commits),
   fun t => sortByTs_filter t (prompts ++ commits)⟩

/-! ### C5: format_tool_stats ordering -/

theorem mem_insertByCount {z x : String × Nat} {l : List (String × Nat)} :
    z ∈ insertByCount x l ↔ z = x ∨ z ∈ l := by
  induction l with
  | nil => simp [insertByCount]
  | cons y ys ih =>
    simp only [insertByCount]
    split
    · simp [List.mem_cons]
    · simp only [List.mem_cons, ih]
      tauto

theorem perm_insertByCount (x : String × Nat) (l : List (String × Nat)) :
    List.Perm (insertByCount x l) (x :: l) := by
  induction l with
  | nil => exact List.Perm.refl _
  | cons y ys ih =>
    simp only [insertByCount]
    split
    · exact List.Perm.refl _
    · exact List.Perm.trans (List.Perm.cons y ih) (List.Perm.swap x y ys)

theorem pairwise_insertByCount (x : String × Nat) (l : List (String × Nat))
    (h : l.Pairwise (fun a b => b.2 ≤ a.2)) :
    (insertByCount x l).Pairwise (fun a b => b.2 ≤ a.2) := by
  induction l with
  | nil => simp [insertByCount]
  | cons y ys ih =>
    rcases List.pairwise_cons.mp h with ⟨hy, hys⟩
    simp only [insertByCount]
    split
    case isTrue hle =>
      refine List.pairwise_cons.mpr ⟨?_, h⟩
      intro z hz
      rcases List.mem_cons.mp hz with rfl | hz'
      · exact hle
      · exact le_trans (hy z hz') hle
    case isFalse hle =>
      refine List.pairwise_cons.mpr ⟨?_, ih hys⟩
      intro z hz
      rcases mem_insertByCount.mp hz with rfl | hz'
      · exact le_of_not_le hle
      · exact hy z hz'

theorem filter_insertByCount (c : Nat) (x : String × Nat) (l : List (String × Nat)) :
    (insertByCount x l).filter (fun p => decide (p.2 = c)) =
      if x.2 = c then x :: l.filter (fun p => decide (p.2 = c))
      else l.filter (fun p => decide (p.2 = c)) := by
  induction l with
  | nil => by_cases hx : x.2 = c <;> simp [insertByCount, List.filter_cons, hx]
  | cons y ys ih =>
    simp only [insertByCount]
    split
    case isTrue hle =>
      by_cases hx : x.2 = c <;> simp [List.filter_cons, hx]
    case isFalse hle =>
      by_cases hx : x.2 = c
      · have hy : ¬ y.2 = c := by
          have hlt : x.2 < y.2 := not_le.mp hle
          rw [hx] at hlt
          exact (ne_of_lt hlt).symm
        simp [List.filter_cons, hx, hy, ih]
      · simp [List.filter_cons, hx, ih]

theorem sortByCountDesc_pairwise (l : List (String × Nat)) :
    (sortByCountDesc l).Pairwise (fun a b => b.2 ≤ a.2) := by
  induction l with
  | nil => simp [sortByCountDesc]
  | cons x xs ih => exact pairwise_insertByCount x (sortByCountDesc xs) ih

theorem sortByCountDesc_perm (l : List (String × Nat)) :
    List.Perm (sortByCountDesc l) l := by
  induction l with
  | nil => exact List.Perm.refl _
  | cons x xs ih =>
    exact List.Perm.trans (perm_insertByCount x (sortByCountDesc xs)) (List.Perm.cons x ih)

theorem sortByCountDesc_filter (c : Nat) (l : List (String × Nat)) :
    (sortByCountDesc l).filter (fun p => decide (p.2 = c)) =
      l.filter (fun p => decide (p.2 = c)) := by
  induction l with
  | nil => rfl
  | cons x xs ih =>
    show (insertByCount x (sortByCountDesc xs)).filter _ = _
    rw [filter_insertByCount]
    by_cases hx : x.2 = c <;> simp [List.filter_cons, hx, ih]

/-- Claim C5 (amended): `format_tool_stats` lists the tools sorted by
descending count, and two tools with equal counts keep the insertion
(first-encounter) order of the `tool_counts` dict — Python's `sorted` is
stable and the sort key is the (negated) count only, so count ties are NOT
broken by the tool's raw name.  The stable order is expressed as: the
sorted items are pairwise non-increasing in count, a permutation of the
items, and every equal-count class is left in input order. -/
theorem format_tool_stats_stable (tool_counts : List (String × Nat)) :
    format_tool_stats tool_counts =
      (if tool_counts.isEmpty then ""
       else String.intercalate " · " ((sortByCountDesc tool_counts).map statEntry)) ∧
    (sortByCountDesc tool_counts).Pairwise (fun a b => b.2 ≤ a.2) ∧
    List.Perm (sortByCountDesc tool_counts) tool_counts ∧
    ∀ c : Nat, (sortByCountDesc tool_counts).filter (fun p => decide (p.2 = c)) =
      tool_counts.filter (fun p => decide (p.2 = c)) :=
  ⟨rfl, sortByCountDesc_pairwise tool_counts, sortByCountDesc_perm tool_counts,
   fun c => sortByCountDesc_filter c tool_counts⟩

/-- Counterexample to claim C5 as stated: for the tool-count mapping built
by using tool `Zeta` once and then tool `Alpha` once (insertion order
`Zeta`, `Alpha`, both with count 1), `format_tool_stats` emits
`"1 zeta · 1 alpha"`, while ordering the tie by the raw tool name — the
spec-modelled `format_tool_stats_nameTies` — would emit
`"1 alpha · 1 zeta"`. -/
theorem format_tool_stats_tie_counterexample :
    format_tool_stats [("Zeta", 1), ("Alpha", 1)] = "1 zeta · 1 alpha" ∧
    format_tool_stats_nameTies [("Zeta", 1), ("Alpha", 1)] = "1 alpha · 1 zeta" ∧
    format_tool_stats [("Zeta", 1), ("Alpha", 1)] ≠
      format_tool_stats_nameTies [("Zeta", 1), ("Alpha", 1)] := by
  refine ⟨by decide, by decide, by decide⟩

/-! ### C6: summary truncation -/

/-- Claim C6 (amended): for every character budget `max_length ≥ 3`,
whenever `get_session_summary` finds a summary string (on any of its three
search paths), the summary is routed through the truncation; a found
summary longer than the budget yields a string of length exactly
`max_length` ending in the three-character ellipsis, and a summary at or
below the budget is returned unchanged.  (The lower bound is needed: for
budgets below 3 the Python slice bound `max_length - 3` is negative and
the result is longer than the budget — see the counterexample.) -/
theorem summary_truncation (s : String) (max_length : Nat) (h3 : 3 ≤ max_length) :
    (∀ lines, jsonlPass1 lines = Except.ok (some s) →
      _get_jsonl_summary lines max_length = truncate_summary s max_length) ∧
    (∀ lines, jsonlPass1 lines = Except.ok none → jsonlPass2 lines = Except.ok (some s) →
      _get_jsonl_summary lines max_length = truncate_summary s max_length) ∧
    (∀ entries, jsonFindSummary entries = some s →
      get_session_summary (SessionSource.jsonFile (Except.ok entries)) max_length =
        truncate_summary s max_length) ∧
    (max_length < s.length →
      (truncate_summary s max_length).length = max_length ∧
      ∃ pre, truncate_summary s max_length = pre ++ "...") ∧
    (s.length ≤ max_length → truncate_summary s max_length = s) := by
  have hb : max_length < s.length →
      truncate_summary s max_length = pySliceTo s ((max_length : Int) - 3) ++ "..." := by
    intro hlen
    simp [truncate_summary, hlen]
  refine ⟨?_, ?_, ?_, ?_, ?_⟩
  · intro lines hp
    simp [_get_jsonl_summary, hp]
  · intro lines hp1 hp2
    simp [_get_jsonl_summary, hp1, hp2]
  · intro entries hfind
    simp [get_session_summary, hfind]
  · intro hlen
    constructor
    · rw [hb hlen, String.length_append]
      have hsl : (pySliceTo s ((max_length : Int) - 3)).length = max_length - 3 := by
        have h0 : (0 : Int) ≤ (max_length : Int) - 3 := by omega
        simp only [pySliceTo, if_pos h0]
        show (s.data.take ((max_length : Int) - 3).toNat).length = max_length - 3
        rw [List.length_take]
        have ht : ((max_length : Int) - 3).toNat = max_length - 3 := by omega
        have hdl : s.length = s.data.length := rfl
        omega
      rw [hsl]
      have he : ("..." : String).length = 3 := rfl
      omega
    · exact ⟨_, hb hlen⟩
  · intro hle
    simp only [truncate_summary, if_neg (by omega : ¬ max_length < s.length)]

/-- Counterexample to claim C6 as stated: with budget `max_length = 1`
(less than the length of the ellipsis) and a found summary `"abcde"` of
length 5 > 1, the returned string is `"abc..."` of length 6, not 1 — the
negative Python slice `content[:-2]` keeps the first three characters. -/
theorem summary_truncation_counterexample :
    jsonFindSummary [Entry.mk (some "user") "t" (some ⟨some (Content.str "abcde")⟩) false] =
      some "abcde" ∧
    1 < ("abcde" : String).length ∧
    get_session_summary
      (SessionSource.jsonFile
        (Except.ok [Entry.mk (some "user") "t" (some ⟨some (Content.str "abcde")⟩) false])) 1 =
      "abc..." ∧
    ("abc..." : String).length ≠ 1 := by
  refine ⟨by decide, by decide, by decide, by decide⟩

/-- Witness for C6: the amended theorem applied at budget 5 with found
summaries `"abcdefgh"` (too long: truncated to length 5 with ellipsis) and
`"abc"` (within budget: unchanged). -/
theorem summary_truncation_witness :
    (truncate_summary "abcdefgh" 5).length = 5 ∧
    (∃ pre, truncate_summary "abcdefgh" 5 = pre ++ "...") ∧
    truncate_summary "abc" 5 = "abc" :=
  ⟨((summary_truncation "abcdefgh" 5 (by decide)).2.2.2.1 (by decide)).1,
   ((summary_truncation "abcdefgh" 5 (by decide)).2.2.2.1 (by decide)).2,
   (summary_truncation "abc" 5 (by decide)).2.2.2.2 (by decide)⟩

/-! ### C9: get_session_summary never raises -/

/-- Claim C9: `get_session_summary` is total — every I/O or parse failure
is absorbed by its exception handlers — and on every input it returns
either the `"(no summary)"` sentinel or a found summary routed through the
truncation; in particular every failed source yields the sentinel. -/
theorem get_session_summary_never_raises (max_length : Nat) :
    (∀ u : Unit,
      get_session_summary (SessionSource.jsonlFile (Except.error u)) max_length =
        "(no summary)" ∧
      get_session_summary (SessionSource.jsonFile (Except.error u)) max_length =
        "(no summary)") ∧
    (∀ src : SessionSource,
      get_session_summary src max_length = "(no summary)" ∨
      ∃ s : String, get_session_summary src max_length = truncate_summary s max_length) := by
  constructor
  · intro u
    exact ⟨rfl, rfl⟩
  · intro src
    match src with
    | SessionSource.jsonlFile (Except.error _) => exact Or.inl rfl
    | SessionSource.jsonlFile (Except.ok lines) =>
      cases h1 : jsonlPass1 lines with
      | error u => exact Or.inl (by simp [get_session_summary, _get_jsonl_summary, h1])
      | ok o1 =>
        cases o1 with
        | some s => exact Or.inr ⟨s, by simp [get_session_summary, _get_jsonl_summary, h1]⟩
        | none =>
          cases h2 : jsonlPass2 lines with
          | error u =>
            exact Or.inl (by simp [get_session_summary, _get_jsonl_summary, h1, h2])
          | ok o2 =>
            cases o2 with
            | some s =>
              exact Or.inr ⟨s, by simp [get_session_summary, _get_jsonl_summary, h1, h2]⟩
            | none =>
              exact Or.inl (by simp [get_session_summary, _get_jsonl_summary, h1, h2])
    | SessionSource.jsonFile (Except.error _) => exact Or.inl rfl
    | SessionSource.jsonFile (Except.ok entries) =>
      cases hf : jsonFindSummary entries with
      | none => exact Or.inl (by simp [get_session_summary, hf])
      | some s => exact Or.inr ⟨s, by simp [get_session_summary, hf]⟩

/-! ### C7: JSONL line tolerance -/

theorem lineToEntry_inv {t ts m ics e} (h : lineToEntry t ts m ics = some e) :
    (t = some "user" ∨ t = some "assistant") ∧ e = Entry.mk t (ts.getD "") m ics := by
  by_cases hc : t = some "user" ∨ t = some "assistant"
  · refine ⟨hc, ?_⟩
    simp only [lineToEntry, if_pos hc, Option.some.injEq] at h
    exact h.symm
  · simp [lineToEntry, if_neg hc] at h

/-- Counterexample to claim C7 as stated: a line whose JSON value is not
an object (for example the valid JSON line `[1, 2]`) makes
`obj.get("type")` raise `AttributeError`, which the
`except json.JSONDecodeError` handler does not catch — the error
propagates out of `_parse_jsonl_file` — while a genuinely malformed line is
skipped silently. -/
theorem parse_jsonl_nonobject_counterexample :
    _parse_jsonl_file [LineVal.nonObject] = Except.error () ∧
    _parse_jsonl_file [LineVal.malformed] = Except.ok [] :=
  ⟨rfl, rfl⟩

/-- Claim C7 (amended): `_parse_jsonl_file` never raises on account of a
line that fails to parse as JSON — blank and malformed lines are skipped
silently and removing them does not change the result — and among object
lines only those of type `user` or `assistant` are kept, with the
`isCompactSummary` flag propagated when present.  (A line holding a
non-object JSON value, however, raises and propagates — see the
counterexample.) -/
theorem parse_jsonl_tolerant (lines : List LineVal) :
    _parse_jsonl_file lines = _parse_jsonl_file (lines.filter (fun l => !isSkippedLine l)) ∧
    (∀ es, _parse_jsonl_file lines = Except.ok es →
      ∀ e ∈ es, e.type = some "user" ∨ e.type = some "assistant") ∧
    (∀ t ts m ics summ meta, (t = some "user" ∨ t = some "assistant") →
      _parse_jsonl_file (LineVal.obj t ts m ics summ meta :: lines) =
        (_parse_jsonl_file lines).map (fun es => Entry.mk t (ts.getD "") m ics :: es)) := by
  refine ⟨?_, ?_, ?_⟩
  · induction lines with
    | nil => rfl
    | cons l rest ih =>
      cases l with
      | blank => simpa [_parse_jsonl_file, isSkippedLine] using ih
      | malformed => simpa [_parse_jsonl_file, isSkippedLine] using ih
      | nonObject => simp [_parse_jsonl_file, isSkippedLine]
      | obj t ts m ics summ meta =>
        have hf : (LineVal.obj t ts m ics summ meta :: rest).filter (fun l => !isSkippedLine l) =
            LineVal.obj t ts m ics summ meta :: rest.filter (fun l => !isSkippedLine l) := by
          rw [List.filter_cons, if_pos]
          rfl
        rw [hf]
        simp only [_parse_jsonl_file]
        cases lineToEntry t ts m ics with
        | none => exact ih
        | some e => rw [ih]
  · induction lines with
    | nil =>
      intro es h
      simp only [_parse_jsonl_file, Except.ok.injEq] at h
      subst h
      intro e he
      simp at he
    | cons l rest ih =>
      cases l with
      | blank => exact ih
      | malformed => exact ih
      | nonObject =>
        intro es h
        simp [_parse_jsonl_file] at h
      | obj t ts m ics summ meta =>
        intro es h
        simp only [_parse_jsonl_file] at h
        cases hle : lineToEntry t ts m ics with
        | none =>
          rw [hle] at h
          exact ih es h
        | some e0 =>
          rw [hle] at h
          cases hr : _parse_jsonl_file rest with
          | error u => rw [hr] at h; simp [Except.map] at h
          | ok es' =>
            rw [hr] at h
            simp only [Except.map, Except.ok.injEq] at h
            subst h
            intro e he
            rcases List.mem_cons.mp he with rfl | he'
            · rcases lineToEntry_inv hle with ⟨ht, rfl⟩
              exact ht
            · exact ih es' hr e he'
  · intro t ts m ics summ meta hc
    simp only [_parse_jsonl_file, lineToEntry, if_pos hc]

/-- Witness for C7: the amended theorem applied to a concrete `user`
object line with the continuation flag set, prepended to the empty line
list. -/
theorem parse_jsonl_tolerant_witness :
    _parse_jsonl_file [LineVal.obj (some "user") (some "t1") none true none false] =
      Except.ok [Entry.mk (some "user") "t1" none true] := by
  have h := (parse_jsonl_tolerant ([] : List LineVal)).2.2
    (some "user") (some "t1") none true none false (Or.inl rfl)
  simpa using h

/-! ### C1: segmentation invariant -/

theorem promptTextOf_ne_empty {e : Entry} {t : String} (h : promptTextOf e = some t) :
    t ≠ "" := by
  cases hm : e.message with
  | none => simp [promptTextOf, hm] at h
  | some m =>
    by_cases hu : e.type = some "user"
    · simp only [promptTextOf, hm, if_pos hu] at h
      cases hc : m.content.getD (Content.str "") with
      | str s =>
        rw [hc] at h
        by_cases hs : pyStrip s = ""
        · simp [hs] at h
        · simp only [if_neg hs, Option.some.injEq] at h
          subst h
          intro h0
          apply hs
          rw [h0]
          rfl
      | blocks bs => rw [hc] at h; simp at h
      | other => rw [hc] at h; simp at h
    · simp [promptTextOf, hm, if_neg hu] at h

theorem segGo_some_messages (es : List Entry) : ∀ (c : Conv),
    (segGo es (some c)).flatMap Conv.messages = c.messages ++ es.filterMap entryTuple := by
  induction es with
  | nil => intro c; simp [segGo]
  | cons e rest ih =>
    intro c
    cases hm : e.message with
    | none =>
      have ht : entryTuple e = none := by simp [entryTuple, hm]
      simp [segGo, hm, List.filterMap_cons, ht, ih]
    | some m =>
      have ht : entryTuple e = some (e.type, m, e.timestamp) := by simp [entryTuple, hm]
      cases hp : promptTextOf e with
      | some t => simp [segGo, hm, hp, List.filterMap_cons, ht, ih]
      | none => simp [segGo, hm, hp, List.filterMap_cons, ht, ih]

theorem segGo_none_messages (es : List Entry) :
    (segGo es none).flatMap Conv.messages =
      (es.dropWhile (fun e => !isPromptEntry e)).filterMap entryTuple := by
  induction es with
  | nil => rfl
  | cons e rest ih =>
    cases hm : e.message with
    | none =>
      have hnp : isPromptEntry e = false := by simp [isPromptEntry, promptTextOf, hm]
      simp [segGo, hm, List.dropWhile_cons, hnp, ih]
    | some m =>
      have ht : entryTuple e = some (e.type, m, e.timestamp) := by simp [entryTuple, hm]
      cases hp : promptTextOf e with
      | none =>
        have hnp : isPromptEntry e = false := by simp [isPromptEntry, hp]
        simp [segGo, hm, hp, List.dropWhile_cons, hnp, ih]
      | some t =>
        have hyp : isPromptEntry e = true := by simp [isPromptEntry, hp]
        simp [segGo, hm, hp, List.dropWhile_cons, hyp, List.filterMap_cons, ht,
          segGo_some_messages]

theorem segGo_user_text (es : List Entry) : ∀ (cur : Option Conv),
    (∀ c0, cur = some c0 → c0.user_text ≠ "") →
    ∀ c ∈ segGo es cur, c.user_text ≠ "" := by
  induction es with
  | nil =>
    intro cur hcur c hc
    cases cur with
    | none => simp [segGo] at hc
    | some c0 =>
      simp only [segGo, Option.toList_some, List.mem_singleton] at hc
      subst hc
      exact hcur c rfl
  | cons e rest ih =>
    intro cur hcur c hc
    cases hm : e.message with
    | none =>
      simp only [segGo, hm] at hc
      exact ih cur hcur c hc
    | some m =>
      cases hp : promptTextOf e with
      | some t =>
        simp only [segGo, hm, hp] at hc
        rcases List.mem_append.mp hc with h1 | h2
        · cases cur with
          | none => simp at h1
          | some c0 =>
            simp only [Option.toList_some, List.mem_singleton] at h1
            subst h1
            exact hcur c rfl
        · refine ih _ ?_ c h2
          intro c0 h0
          injection h0 with h0
          subst h0
          exact promptTextOf_ne_empty hp
      | none =>
        cases cur with
        | none =>
          simp only [segGo, hm, hp] at hc
          exact ih none (fun c0 h => Option.noConfusion h) c hc
        | some c0 =>
          simp only [segGo, hm, hp] at hc
          refine ih _ ?_ c hc
          intro c1 h1
          injection h1 with h1
          subst h1
          exact hcur c0 rfl

/-- Claim C1 (amended): in the segmentation built by `generate_html`,
every conversation's `user_text` is a non-empty string, and the
concatenation of all conversations' message lists is exactly the sequence
of *non-empty-message* entries from the first prompt onward (no gaps, no
overlaps).  Entries strictly before the first prompt belong to no
conversation — and so does any entry whose `message` is missing or empty,
even after the first prompt, because the loop skips those entries before
the conversation bookkeeping (see the counterexample). -/
theorem segmentation_invariant (loglines : List Entry) :
    (∀ c ∈ segmentLoglines loglines, c.user_text ≠ "") ∧
    (segmentLoglines loglines).flatMap Conv.messages =
      (loglines.dropWhile (fun e => !isPromptEntry e)).filterMap entryTuple :=
  ⟨segGo_user_text loglines none (fun _ h => Option.noConfusion h),
   segGo_none_messages loglines⟩

/-- Counterexample to claim C1 as stated: in the session
`[user prompt "hi", assistant entry with empty message]`, both entries sit
at or after the first prompt, yet the conversations hold only one message
tuple in total — the empty-message assistant entry belongs to no
conversation, although it is not strictly before the first prompt. -/
theorem segmentation_counterexample :
    (([Entry.mk (some "user") "t1" (some ⟨some (Content.str "hi")⟩) false,
       Entry.mk (some "assistant") "t2" none false].dropWhile
        (fun e => !isPromptEntry e)).length = 2) ∧
    ((segmentLoglines
        [Entry.mk (some "user") "t1" (some ⟨some (Content.str "hi")⟩) false,
         Entry.mk (some "assistant") "t2" none false]).flatMap Conv.messages).length = 1 := by
  refine ⟨by decide, by decide⟩

/-- Witness for C1: the amended theorem applied to the one-prompt session
`[user "hi"]`. -/
theorem segmentation_invariant_witness :
    (Conv.mk "hi" "t1" [(some "user", ⟨some (Content.str "hi")⟩, "t1")] false).user_text ≠ "" ∧
    (segmentLoglines [Entry.mk (some "user") "t1" (some ⟨some (Content.str "hi")⟩) false]).flatMap
        Conv.messages =
      [(some "user", ⟨some (Content.str "hi")⟩, "t1")] :=
  ⟨(segmentation_invariant
      [Entry.mk (some "user") "t1" (some ⟨some (Content.str "hi")⟩) false]).1 _ (by decide),
   by
    rw [(segmentation_invariant
      [Entry.mk (some "user") "t1" (some ⟨some (Content.str "hi")⟩) false]).2]
    decide⟩

/-! ### C3: long-text threshold -/

theorem foldl_analyzeBlock_long (ts : String) (bs : List Block) : ∀ (st : Stats),
    (bs.foldl (analyzeBlock ts) st).long_texts =
      st.long_texts ++
        (bs.filterMap (fun b => match b with | Block.text s => some s | _ => none)).filter
          (fun t => decide (LONG_TEXT_THRESHOLD ≤ t.length)) := by
  induction bs with
  | nil => intro st; simp
  | cons b rest ih =>
    intro st
    cases b with
    | text s =>
      by_cases hlen : LONG_TEXT_THRESHOLD ≤ s.length
      · simp [analyzeBlock, hlen, ih, List.filterMap_cons, List.filter_cons]
      · simp [analyzeBlock, hlen, ih, List.filterMap_cons, List.filter_cons]
    | thinking s => simp [analyzeBlock, ih, List.filterMap_cons]
    | tool_use name => simp [analyzeBlock, ih, List.filterMap_cons]
    | tool_result content is_error =>
      cases content with
      | str s2 => simp [analyzeBlock, ih, List.filterMap_cons]
      | nonstr => simp [analyzeBlock, ih, List.filterMap_cons]
    | other => simp [analyzeBlock, ih, List.filterMap_cons]

theorem analyze_long_texts (msgs : List MsgTuple) : ∀ (st : Stats),
    (msgs.foldl analyzeMessage st).long_texts =
      st.long_texts ++
        (textBlocksOf msgs).filter (fun t => decide (LONG_TEXT_THRESHOLD ≤ t.length)) := by
  induction msgs with
  | nil => intro st; simp [textBlocksOf]
  | cons m rest ih =>
    intro st
    cases hc : m.2.1.content with
    | none => simp [analyzeMessage, hc, ih, textBlocksOf]
    | some c =>
      cases c with
      | blocks bs =>
        simp [analyzeMessage, hc, ih, textBlocksOf, foldl_analyzeBlock_long,
          List.filter_append, List.append_assoc]
      | str s => simp [analyzeMessage, hc, ih, textBlocksOf]
      | other => simp [analyzeMessage, hc, ih, textBlocksOf]

theorem analyze_conversation_long_texts (msgs : List MsgTuple) :
    (analyze_conversation msgs).long_texts =
      (textBlocksOf msgs).filter (fun t => decide (LONG_TEXT_THRESHOLD ≤ t.length)) := by
  simpa using analyze_long_texts msgs ⟨[], [], []⟩

theorem indexLongTexts_mem_ge {t : String} : ∀ (convs : List Conv),
    t ∈ indexLongTexts convs → LONG_TEXT_THRESHOLD ≤ t.length := by
  intro convs
  induction convs with
  | nil => intro h; simp [indexLongTexts] at h
  | cons c rest ih =>
    intro h
    simp only [indexLongTexts] at h
    rcases List.mem_append.mp h with h1 | h2
    · by_cases he : eligiblePrompt c = true
      · rw [if_pos he, analyze_conversation_long_texts] at h1
        exact of_decide_eq_true (List.mem_filter.mp h1).2
      · rw [if_neg he] at h1
        simp at h1
    · exact ih h2

theorem indexLongTexts_mono (x : Conv) (l : List Conv) {t : String}
    (h : t ∈ indexLongTexts l) : t ∈ indexLongTexts (x :: l) := by
  simp only [indexLongTexts]
  exact List.mem_append_right _ h

/-- Claim C3 (amended): a text block of exactly 299 characters never
appears among the index page's long-text excerpts; a text block of exactly
300 characters (the fixed `LONG_TEXT_THRESHOLD`) appears whenever it
occurs among the messages analyzed for an eligible prompt (a
non-continuation conversation whose prompt is not hook feedback, together
with its continuation chain).  The original "always appears" fails for
blocks living only under skipped prompts — see the counterexample. -/
theorem long_text_threshold (convs : List Conv) (t : String) :
    (t.length = 299 → t ∉ indexLongTexts convs) ∧
    (∀ pre c rest, convs = pre ++ c :: rest → eligiblePrompt c = true → t.length = 300 →
      t ∈ textBlocksOf (c.messages ++ takeContinuations rest) →
      t ∈ indexLongTexts convs) := by
  constructor
  · intro h299 hmem
    have hge := indexLongTexts_mem_ge convs hmem
    rw [h299] at hge
    simp [LONG_TEXT_THRESHOLD] at hge
  · intro pre c rest hconv helig hlen hblk
    subst hconv
    induction pre with
    | nil =>
      simp only [indexLongTexts, if_pos helig]
      apply List.mem_append_left
      rw [analyze_conversation_long_texts]
      refine List.mem_filter.mpr ⟨hblk, ?_⟩
      rw [hlen]
      decide
    | cons x xs ihp => exact indexLongTexts_mono x _ ihp

set_option maxRecDepth 40000 in
/-- Counterexample to claim C3 as stated: `hookSession` contains a text
block of exactly 300 characters, but its only conversation is a
hook-feedback prompt, which the index loop skips — the index long-text
excerpts are empty. -/
theorem long_text_threshold_counterexample :
    s300.length = 300 ∧
    textBlocksOf ((segmentLoglines hookSession).flatMap Conv.messages) = [s300] ∧
    indexLongTexts (segmentLoglines hookSession) = [] := by
  refine ⟨by decide, by decide, by decide⟩

set_option maxRecDepth 40000 in
/-- Witness for C3: the amended theorem applied to the one-conversation
session `plainConv`, whose assistant message holds the 300-character block
`s300` — the block appears in the excerpts, while the 299-character block
`s299` cannot appear. -/
theorem long_text_threshold_witness :
    s300 ∈ indexLongTexts [plainConv] ∧ s299 ∉ indexLongTexts [plainConv] :=
  ⟨(long_text_threshold [plainConv] s300).2 [] plainConv [] rfl (by decide) (by decide)
      (by decide),
   (long_text_threshold [plainConv] s299).1 (by decide)⟩

/-! ### C10: equivalence of the two pipelines -/

theorem segGo_sd_eq (es : List Entry) : ∀ (cur : Option Conv),
    segGo_sd es cur = segGo es cur := by
  induction es with
  | nil => intro cur; rfl
  | cons e rest ih =>
    intro cur
    cases hm : e.message with
    | none =>
      simp only [segGo_sd, segGo, hm]
      exact ih cur
    | some m =>
      cases hp : promptTextOf e with
      | some t => simp only [segGo_sd, segGo, hm, hp, ih]
      | none =>
        cases cur with
        | some c =>
          simp only [segGo_sd, segGo, hm, hp]
          exact ih _
        | none =>
          simp only [segGo_sd, segGo, hm, hp]
          exact ih none

theorem segmentLoglines_sd_eq (loglines : List Entry) :
    segmentLoglines_sd loglines = segmentLoglines loglines := by
  simp only [segmentLoglines_sd, segmentLoglines, segGo_sd_eq]

theorem convHtml_sd_eq (env : RenderEnv) (repo : Option String) (conv : Conv) :
    convHtml_sd env repo conv = convHtml env repo conv := by
  simp only [convHtml_sd, convHtml]

theorem renderPage_sd_eq (env : RenderEnv) (repo : Option String)
    (total_pages page_num : Nat) (page_convs : List Conv) :
    renderPage_sd env repo total_pages page_num page_convs =
      renderPage env repo total_pages page_num page_convs := by
  have hc : convHtml_sd env repo = convHtml env repo := funext (convHtml_sd_eq env repo)
  simp only [renderPage_sd, renderPage, hc]

theorem totalsGo_sd_eq (convs : List Conv) : ∀ (i : Nat) (tc : List (String × Nat))
    (tm : Nat) (ac : List CommitTup),
    totalsGo_sd convs i tc tm ac = totalsGo convs i tc tm ac := by
  induction convs with
  | nil => intro i tc tm ac; rfl
  | cons c rest ih =>
    intro i tc tm ac
    simp only [totalsGo_sd, totalsGo]
    exact ih _ _ _ _

theorem takeContinuations_sd_eq (l : List Conv) :
    takeContinuations_sd l = takeContinuations l := by
  induction l with
  | nil => rfl
  | cons c rest ih => simp only [takeContinuations_sd, takeContinuations, ih]

theorem promptItemsGo_sd_eq (env : RenderEnv) (l : List Conv) : ∀ (i prompt_num : Nat),
    promptItemsGo_sd env l i prompt_num = promptItemsGo env l i prompt_num := by
  induction l with
  | nil => intro i pn; rfl
  | cons c rest ih =>
    intro i pn
    simp only [promptItemsGo_sd, promptItemsGo, takeContinuations_sd_eq, ih]

/-- Claim C10: for the same loglines list and the same `github_repo`
value, the file-path entry point (`generate_html`) and the in-memory entry
point (`generate_html_from_session_data`) build identical conversation
segmentations and produce identical page and index content, for every
behaviour of the shared rendering primitives. -/
theorem pipelines_equivalent (env : RenderEnv) (loglines : List Entry)
    (github_repo : Option String) :
    generate_html_from_session_data env loglines github_repo =
      generate_html env loglines github_repo ∧
    segmentLoglines_sd loglines = segmentLoglines loglines := by
  refine ⟨?_, segmentLoglines_sd_eq loglines⟩
  simp only [generate_html, generate_html_from_session_data, segmentLoglines_sd_eq,
    renderPage_sd_eq, totalsGo_sd_eq, promptItemsGo_sd_eq]
